import Mathlib

/-!
# The in-process AMQP broker simulator of cb-event-forwarder

Shallow embedding of `gotests/mock_ampq.go` (package `tests`): the types
`MockAMQPConnection`, `MockAMQPQueue`, `MockAMQPChannel`, `MockAMQPDialer` and
their methods, followed by theorems about them.

Conventions of the embedding.

* A Go `error` is an `Option String`: `nil` is `none`, `errors.New s` is `some s`.
* A Go channel value (`chan amqp.Delivery`) is known by its identity only:
  `nil` is `none`, the channel returned by the `n`-th `make` is `some n`.
  A send on a channel that `make` returned is recorded as a `Send` event, in
  program order; that a reader takes it, and when, is the business of the Go
  scheduler and is not part of a sequential run. A send on the nil channel can
  never be taken: the call blocks for ever at that statement, which is the
  ending `blockedOnNil`.
* A Go map (`map[string][]string`) is `none` when it is the nil map and
  `some kvs` otherwise, `kvs` an association list in which the first binding
  of a key is the one the map holds. Every map the simulator creates comes
  from the `make` in `QueueDeclare` and is stored in exactly one queue, so the
  contents are kept in the queue itself.
* A Go run-time panic is `Except.error` with the run-time's message.
* Pointers to `MockAMQPChannel` and `MockAMQPConnection` objects are addresses
  into a `Heap` (section on connections and dialers); the method bodies on a channel are
  first given as functions of the pointed-to value.
-/

set_option linter.unusedVariables false

namespace amqp

/-- Type `amqp.Table` of the client library, the `args` of declare, bind and consume. -/
abbrev Table := List (String × String)

/-- Fields of `amqp.Publishing` (client library). `Body` is a byte string. -/
structure Publishing where
  ContentType : String
  ContentEncoding : String
  DeliveryMode : Nat
  Priority : Nat
  CorrelationId : String
  ReplyTo : String
  MessageId : String
  Body : List Nat
deriving DecidableEq, Repr

/-- Fields of `amqp.Delivery` (client library); a composite literal leaves the
fields it does not name at their zero value. -/
structure Delivery where
  ContentType : String
  ContentEncoding : String
  DeliveryMode : Nat
  Priority : Nat
  CorrelationId : String
  ReplyTo : String
  MessageId : String
  ConsumerTag : String
  MessageCount : Nat
  DeliveryTag : Nat
  Redelivered : Bool
  Exchange : String
  RoutingKey : String
  Body : List Nat
deriving DecidableEq, Repr

/-- Type `amqp.Queue` of the client library: the descriptor `QueueDeclare` returns. -/
structure Queue where
  Name : String
  Messages : Int
  Consumers : Int
deriving DecidableEq, Repr

end amqp

namespace tests

/-- Go `error`. -/
abbrev GoError := Option String

/-- Contents of a non-nil `map[string][]string`. -/
abbrev GoMap := List (String × List String)

/-- Go `v, ok := m[k]` on a possibly nil map: the zero value and `false` when
the key is absent (always so on the nil map). -/
def mapIndex (m : Option GoMap) (k : String) : List String × Bool :=
  match m with
  | none => ([], false)
  | some kvs =>
    match kvs.lookup k with
    | some v => (v, true)
    | none => ([], false)

/-- Contents of a map after `m[k] = v`: the binding of `k` is replaced where it
stands, a new key is added at the end. -/
def GoMap.put (k : String) (v : List String) : GoMap → GoMap
  | [] => [(k, v)]
  | (k0, v0) :: rest => if k0 = k then (k, v) :: rest else (k0, v0) :: GoMap.put k v rest

/-- Go `m[k] = v`: panics on the nil map. -/
def mapAssign (m : Option GoMap) (k : String) (v : List String) : Except String (Option GoMap) :=
  match m with
  | none => .error "assignment to entry in nil map"
  | some kvs => .ok (some (GoMap.put k v kvs))

/-- Struct `MockAMQPQueue`. `Deliveries` is the identity of the Go channel. -/
structure MockAMQPQueue where
  Name : String
  Deliveries : Option Nat
  BoundExchanges : Option GoMap
deriving DecidableEq, Repr

/-- Struct `MockAMQPChannel`. -/
structure MockAMQPChannel where
  Queues : List MockAMQPQueue
deriving DecidableEq, Repr

/-- One execution of the statement `ch <- d`. -/
structure Send where
  ch : Option Nat
  d : amqp.Delivery
deriving DecidableEq, Repr

/-- The Delivery literal built in the body of `Publish`. -/
def publishDelivery (exchange key : String) (msg : amqp.Publishing) : amqp.Delivery :=
  { ContentType := msg.ContentType, ContentEncoding := "", DeliveryMode := 0, Priority := 0,
    CorrelationId := "", ReplyTo := "", MessageId := "", ConsumerTag := "", MessageCount := 0,
    DeliveryTag := 0, Redelivered := false,
    Exchange := exchange, RoutingKey := key, Body := msg.Body }

/-- How a call ends: it returns its result, or it never returns because it
blocks for ever at a send on the nil channel. -/
inductive Ending (α : Type) where
  | returned (v : α)
  | blockedOnNil
deriving DecidableEq, Repr

/-- The `range` loop of `Publish` over the queues still to visit, `sends` the
sends made so far, and the `return nil` after the loop. The send
`queue.Deliveries <- amqp.Delivery{...}` on a nil `Deliveries` blocks for ever:
no later queue is visited and the call does not return. -/
def Publish.loop (exchange key : String) (msg : amqp.Publishing) :
    List MockAMQPQueue → List Send → List Send × Ending GoError
  | [], sends => (sends, .returned none)
  | queue :: rest, sends =>
    if (mapIndex queue.BoundExchanges exchange).2 then
      match queue.Deliveries with
      | none => (sends, .blockedOnNil)
      | some c =>
        Publish.loop exchange key msg rest
          (sends ++ [{ ch := some c, d := publishDelivery exchange key msg }])
    else Publish.loop exchange key msg rest sends

/-- Method `(*MockAMQPChannel).Publish`: the sends it makes, in program order,
and how the call ends. -/
def MockAMQPChannel.Publish (mock : MockAMQPChannel) (exchange key : String)
    (mandatory immediate : Bool) (msg : amqp.Publishing) : List Send × Ending GoError :=
  Publish.loop exchange key msg mock.Queues []

/-- Method `(*MockAMQPChannel).QueueDeclare`; `made` is the channel that
`make(chan amqp.Delivery)` returns, and `make(map[string][]string, 0)` is the
empty non-nil map. Gives the new `*mock` and the two results. -/
def MockAMQPChannel.QueueDeclare (mock : MockAMQPChannel) (made : Nat) (name : String)
    (durable autoDelete exclusive noWait : Bool) (args : amqp.Table) :
    MockAMQPChannel × amqp.Queue × GoError :=
  ({ Queues := mock.Queues ++ [{ Deliveries := some made, Name := name, BoundExchanges := some [] }] },
   { Name := name, Messages := 0, Consumers := 0 },
   none)

/-- The `range` loop of `QueueBind` from index `i` on, `n` iterations left:
`queue` is the copy of element `i`, the assignment goes to the map of
`mock.Queues[i]`. -/
def QueueBind.loop (name key exchange : String) :
    Nat → Nat → List MockAMQPQueue → Except String (List MockAMQPQueue)
  | 0, _, qs => .ok qs
  | n + 1, i, qs =>
    match qs[i]? with
    | none => .ok qs
    | some queue =>
      if queue.Name = name then
        let (existingKeys, ok) := mapIndex queue.BoundExchanges exchange
        let newKeys := if ok then existingKeys ++ [key] else [key]
        match mapAssign queue.BoundExchanges exchange newKeys with
        | .error e => .error e
        | .ok m => QueueBind.loop name key exchange n (i + 1) (qs.set i { queue with BoundExchanges := m })
      else QueueBind.loop name key exchange n (i + 1) qs

/-- Method `(*MockAMQPChannel).QueueBind`: the new `*mock` and the returned
error, or the panic of a write to a nil map. -/
def MockAMQPChannel.QueueBind (mock : MockAMQPChannel) (name key exchange : String)
    (noWait : Bool) (args : amqp.Table) : Except String (MockAMQPChannel × GoError) :=
  match QueueBind.loop name key exchange mock.Queues.length 0 mock.Queues with
  | .error e => .error e
  | .ok qs => .ok ({ Queues := qs }, none)

/-- Method `MockAMQPChannel.Cancel`. -/
def MockAMQPChannel.Cancel (mock : MockAMQPChannel) (consumer : String) (noWait : Bool) : GoError :=
  none

/-- The `range` loop of `Consume` with its early return, and the statement
after the loop. -/
def Consume.loop (queue : String) : List MockAMQPQueue → Option Nat × GoError
  | [] => (none, some "Couldn't find queue by name")
  | q :: rest => if q.Name = queue then (q.Deliveries, none) else Consume.loop queue rest

/-- Method `MockAMQPChannel.Consume`. -/
def MockAMQPChannel.Consume (mock : MockAMQPChannel) (queue consumer : String)
    (autoAck exclusive noLocal noWait : Bool) (args : amqp.Table) : Option Nat × GoError :=
  Consume.loop queue mock.Queues

/-- The keys of a queue's binding map (none on the nil map). -/
def exchangesOf (q : MockAMQPQueue) : List String :=
  match q.BoundExchanges with
  | none => []
  | some kvs => kvs.map Prod.fst

/-- The key list a queue's binding map holds under an exchange, if any. -/
def keysUnder (q : MockAMQPQueue) (exchange : String) : Option (List String) :=
  match q.BoundExchanges with
  | none => none
  | some kvs => kvs.lookup exchange

/-- What one iteration of the loop of `QueueBind` leaves of a queue whose map
is not nil: a queue of another name as it was, a queue of that name with `key`
added after the keys its map held under `exchange`. -/
def rebind (name key exchange : String) (q : MockAMQPQueue) : MockAMQPQueue :=
  if q.Name = name then
    match q.BoundExchanges with
    | none => q
    | some kvs =>
      { q with BoundExchanges := some (GoMap.put exchange ((kvs.lookup exchange).getD [] ++ [key]) kvs) }
  else q

/-! ## Set-up runs: sequences of QueueDeclare and QueueBind calls on one channel -/

/-- A call of the set-up phase with its arguments. -/
inductive Call where
  | declare (name : String) (durable autoDelete exclusive noWait : Bool) (args : amqp.Table)
  | bind (name key exchange : String) (noWait : Bool) (args : amqp.Table)
deriving DecidableEq, Repr

/-- A channel object and the number of Go channels `make` has returned so far. -/
structure Session where
  made : Nat
  mock : MockAMQPChannel
deriving DecidableEq, Repr

/-- The channel `&MockAMQPChannel{}` in a program that has made `made` Go channels. -/
def Session.empty (made : Nat) : Session := { made := made, mock := { Queues := [] } }

/-- One call on the session's channel. -/
def Session.call (s : Session) : Call → Except String Session
  | .declare name durable autoDelete exclusive noWait args =>
    .ok { made := s.made + 1,
          mock := (s.mock.QueueDeclare s.made name durable autoDelete exclusive noWait args).1 }
  | .bind name key exchange noWait args =>
    match s.mock.QueueBind name key exchange noWait args with
    | .error e => .error e
    | .ok r => .ok { made := s.made, mock := r.1 }

/-- The calls of a list, one after the other. -/
def Session.run (s : Session) : List Call → Except String Session
  | [] => .ok s
  | c :: rest =>
    match s.call c with
    | .error e => .error e
    | .ok s1 => s1.run rest

/-- The calls `QueueDeclare(name, ...)`, one for each entry of a list of flag values. -/
def declares (name : String) (fl : List (Bool × Bool × Bool × Bool × amqp.Table)) : List Call :=
  fl.map (fun f => Call.declare name f.1 f.2.1 f.2.2.1 f.2.2.2.1 f.2.2.2.2)

/-- Number of `QueueDeclare` calls in a list of calls. -/
def countDeclares : List Call → Nat
  | [] => 0
  | .declare _ _ _ _ _ _ :: rest => countDeclares rest + 1
  | .bind _ _ _ _ _ :: rest => countDeclares rest

/-- Invariant of a set-up run that started on the empty channel when `n0` Go
channels had been made: the queue at position `j` holds the channel `n0 + j`
and a map that is not nil. -/
def Session.Fresh (n0 : Nat) (s : Session) : Prop :=
  s.made = n0 + s.mock.Queues.length ∧
  ∀ (j : Nat) (q : MockAMQPQueue), s.mock.Queues[j]? = some q → q.Deliveries = some (n0 + j) ∧ q.BoundExchanges ≠ none

/-- Relation between a state and a later one: every queue is still at its
position under its name and is bound to the exchanges it was bound to. -/
def Session.Grows (s s1 : Session) : Prop :=
  ∀ (j : Nat) (q : MockAMQPQueue), s.mock.Queues[j]? = some q →
    ∃ q1 : MockAMQPQueue, s1.mock.Queues[j]? = some q1 ∧ q1.Name = q.Name ∧ ∀ e ∈ exchangesOf q, e ∈ exchangesOf q1

/-! ## Connections and dialers: objects on a heap -/

/-- Struct `MockAMQPConnection`; `AMQPCHAN` is a `*MockAMQPChannel`, nil or the
address of a channel object. -/
structure MockAMQPConnection where
  AMQPURL : String
  AMQPCHAN : Option Nat
deriving DecidableEq, Repr

/-- Struct `MockAMQPDialer`: it holds its connection by value. -/
structure MockAMQPDialer where
  Connection : MockAMQPConnection
deriving DecidableEq, Repr

/-- The objects pointers point to, the address of an object being its position,
and the number of Go channels `make` has returned so far. -/
structure Heap where
  made : Nat
  channels : List MockAMQPChannel
  conns : List MockAMQPConnection
deriving DecidableEq, Repr

/-- Method `MockAMQPConnection.Close`. -/
def MockAMQPConnection.Close (mock : MockAMQPConnection) : GoError := none

/-- Method `MockAMQPConnection.NotifyClose`; the receiver channel is known by its identity. -/
def MockAMQPConnection.NotifyClose (mock : MockAMQPConnection) (receiver : Option Nat) : Option Nat :=
  receiver

/-- Method `(*MockAMQPConnection).Channel`, `mock` the address of the connection:
the heap after the call and the two results. -/
def MockAMQPConnection.Channel (h : Heap) (mock : Nat) : Except String (Heap × Option Nat × GoError) :=
  match h.conns[mock]? with
  | none => .error "runtime error: invalid memory address or nil pointer dereference"
  | some c =>
    match c.AMQPCHAN with
    | none =>
      .ok ({ h with
              channels := h.channels ++ [{ Queues := [] }],
              conns := h.conns.set mock { c with AMQPCHAN := some h.channels.length } },
           some h.channels.length, none)
    | some a => .ok (h, some a, none)

/-- Method `MockAMQPDialer.Dial`. The receiver is passed by value: `mdial` is
the callee's own copy of the dialer, and `&mdial.Connection` is the address of
the connection inside that copy, a new object on the heap. -/
def MockAMQPDialer.Dial (h : Heap) (mdial : MockAMQPDialer) (s : String) : Heap × Nat × GoError :=
  ({ h with conns := h.conns ++ [mdial.Connection] }, h.conns.length, none)

/-- Method `MockAMQPDialer.DialTLS`, with the same value receiver; `tlscfg` is
a `*tls.Config`, known by its address. -/
def MockAMQPDialer.DialTLS (h : Heap) (mdial : MockAMQPDialer) (s : String) (tlscfg : Option Nat) :
    Heap × Nat × GoError :=
  ({ h with conns := h.conns ++ [mdial.Connection] }, h.conns.length, none)

/-- A call of `QueueDeclare` through a `*MockAMQPChannel`. -/
def Heap.QueueDeclare (h : Heap) (mock : Option Nat) (name : String)
    (durable autoDelete exclusive noWait : Bool) (args : amqp.Table) :
    Except String (Heap × amqp.Queue × GoError) :=
  match mock with
  | none => .error "runtime error: invalid memory address or nil pointer dereference"
  | some a =>
    match h.channels[a]? with
    | none => .error "runtime error: invalid memory address or nil pointer dereference"
    | some c =>
      let r := c.QueueDeclare h.made name durable autoDelete exclusive noWait args
      .ok ({ h with made := h.made + 1, channels := h.channels.set a r.1 }, r.2)

/-- The queues seen through a `*MockAMQPChannel`. -/
def Heap.queuesAt (h : Heap) (mock : Option Nat) : Option (List MockAMQPQueue) :=
  match mock with
  | none => none
  | some a => (h.channels[a]?).map MockAMQPChannel.Queues

/-- The client sequence `c1, _ := d.Dial(s1); c2, _ := d.DialTLS(s2, cfg);
ch1, _ := c1.Channel(); ch2, _ := c2.Channel()`: the heap after it and the two
channel pointers. -/
def dialBoth (h : Heap) (mdial : MockAMQPDialer) (s1 s2 : String) (tlscfg : Option Nat) :
    Except String (Heap × Option Nat × Option Nat) :=
  let r1 := mdial.Dial h s1
  let r2 := mdial.DialTLS r1.1 s2 tlscfg
  match MockAMQPConnection.Channel r2.1 r1.2.1 with
  | .error e => .error e
  | .ok (h3, ch1, _) =>
    match MockAMQPConnection.Channel h3 r2.2.1 with
    | .error e => .error e
    | .ok (h4, ch2, _) => .ok (h4, ch1, ch2)

/-- The client sequence `c1, _ := d.Dial(s1); ch1, _ := c1.Channel();
c2, _ := d.DialTLS(s2, cfg); ch2, _ := c2.Channel()`. -/
def dialEach (h : Heap) (mdial : MockAMQPDialer) (s1 s2 : String) (tlscfg : Option Nat) :
    Except String (Heap × Option Nat × Option Nat) :=
  let r1 := mdial.Dial h s1
  match MockAMQPConnection.Channel r1.1 r1.2.1 with
  | .error e => .error e
  | .ok (h2, ch1, _) =>
    let r2 := mdial.DialTLS h2 s2 tlscfg
    match MockAMQPConnection.Channel r2.1 r2.2.1 with
    | .error e => .error e
    | .ok (h4, ch2, _) => .ok (h4, ch1, ch2)

/-! ## Lemmas on maps -/

theorem lookup_isSome_iff (kvs : GoMap) (k : String) :
    (kvs.lookup k).isSome = true ↔ k ∈ kvs.map Prod.fst := by
  induction kvs with
  | nil => simp
  | cons p rest ih =>
    obtain ⟨k0, v0⟩ := p
    by_cases h : k = k0
    · subst h; simp [List.lookup]
    · have h2 : (k == k0) = false := by simpa using h
      simp [List.lookup, h2, ih, h]

theorem mapIndex_ok_iff (q : MockAMQPQueue) (exchange : String) :
    (mapIndex q.BoundExchanges exchange).2 = true ↔ exchange ∈ exchangesOf q := by
  unfold mapIndex exchangesOf
  cases hm : q.BoundExchanges with
  | none => simp
  | some kvs =>
    have := lookup_isSome_iff kvs exchange
    cases hl : kvs.lookup exchange with
    | none => simp [hl] at this ⊢; exact this
    | some v => simp [hl] at this ⊢; exact this

theorem mapIndex_fst (q : MockAMQPQueue) (exchange : String) :
    (mapIndex q.BoundExchanges exchange).1 = (keysUnder q exchange).getD [] := by
  unfold mapIndex keysUnder
  cases hm : q.BoundExchanges with
  | none => simp
  | some kvs => cases hl : kvs.lookup exchange <;> simp [hl]

theorem lookup_put_same (k : String) (v : List String) (kvs : GoMap) :
    (GoMap.put k v kvs).lookup k = some v := by
  induction kvs with
  | nil => simp [GoMap.put, List.lookup]
  | cons p rest ih =>
    obtain ⟨k0, v0⟩ := p
    by_cases h : k0 = k
    · simp [GoMap.put, h, List.lookup]
    · have h2 : (k == k0) = false := by simpa using fun e => h e.symm
      simp [GoMap.put, h, List.lookup, h2, ih]

theorem lookup_put_other (k e : String) (v : List String) (kvs : GoMap) (hne : e ≠ k) :
    (GoMap.put k v kvs).lookup e = kvs.lookup e := by
  induction kvs with
  | nil =>
    have h2 : (e == k) = false := by simpa using hne
    simp [GoMap.put, List.lookup, h2]
  | cons p rest ih =>
    obtain ⟨k0, v0⟩ := p
    by_cases h : k0 = k
    · subst h
      have h2 : (e == k0) = false := by simpa using hne
      simp [GoMap.put, List.lookup, h2]
    · by_cases h3 : e = k0
      · subst h3; simp [GoMap.put, h, List.lookup]
      · have h4 : (e == k0) = false := by simpa using h3
        simp [GoMap.put, h, List.lookup, h4, ih]

/-! ## Publish -/

theorem mapIndex_not_ok (q : MockAMQPQueue) (exchange : String) (h : exchange ∉ exchangesOf q) :
    (mapIndex q.BoundExchanges exchange).2 = false := by
  cases hb : (mapIndex q.BoundExchanges exchange).2
  · rfl
  · exact absurd ((mapIndex_ok_iff q exchange).1 hb) h

theorem publish_loop_made (exchange key : String) (msg : amqp.Publishing) :
    ∀ (qs : List MockAMQPQueue) (acc : List Send),
      (∀ q ∈ qs, exchange ∈ exchangesOf q → q.Deliveries ≠ none) →
      Publish.loop exchange key msg qs acc
        = (acc ++ (qs.filter (fun q => decide (exchange ∈ exchangesOf q))).map
            (fun q => ({ ch := q.Deliveries, d := publishDelivery exchange key msg } : Send)),
           .returned none) := by
  intro qs
  induction qs with
  | nil => intro acc _; simp [Publish.loop]
  | cons q rest ih =>
    intro acc hmade
    have hrest : ∀ p ∈ rest, exchange ∈ exchangesOf p → p.Deliveries ≠ none :=
      fun p hp => hmade p (List.mem_cons_of_mem _ hp)
    by_cases h : exchange ∈ exchangesOf q
    · have h2 := (mapIndex_ok_iff q exchange).2 h
      cases hd : q.Deliveries with
      | none => exact absurd hd (hmade q (List.mem_cons_self _ _) h)
      | some c =>
        simp only [Publish.loop, h2, if_true, hd]
        rw [ih _ hrest]
        simp [List.filter_cons, h, hd]
    · have h2 := mapIndex_not_ok q exchange h
      simp only [Publish.loop, h2]
      rw [ih _ hrest]
      simp [List.filter_cons, h]

theorem publish_loop_snoc_unbound (exchange key : String) (msg : amqp.Publishing)
    (qn : MockAMQPQueue) (hn : exchange ∉ exchangesOf qn) :
    ∀ (qs : List MockAMQPQueue) (acc : List Send),
      Publish.loop exchange key msg (qs ++ [qn]) acc = Publish.loop exchange key msg qs acc := by
  intro qs
  induction qs with
  | nil =>
    intro acc
    simp [Publish.loop, mapIndex_not_ok qn exchange hn]
  | cons q rest ih =>
    intro acc
    by_cases h : exchange ∈ exchangesOf q
    · have h2 := (mapIndex_ok_iff q exchange).2 h
      cases hd : q.Deliveries with
      | none => simp [Publish.loop, h2, hd]
      | some c =>
        rw [List.cons_append]
        simp only [Publish.loop, h2, if_true, hd]
        exact ih _
    · have h2 := mapIndex_not_ok q exchange h
      rw [List.cons_append]
      simp only [Publish.loop, h2]
      simpa using ih acc

theorem publish_loop_sub (exchange key : String) (msg : amqp.Publishing) :
    ∀ (qs : List MockAMQPQueue) (acc : List Send),
      ∀ s ∈ (Publish.loop exchange key msg qs acc).1,
        s ∈ acc ∨ ∃ q ∈ qs, exchange ∈ exchangesOf q ∧ s.ch = q.Deliveries := by
  intro qs
  induction qs with
  | nil =>
    intro acc s hs
    simp only [Publish.loop] at hs
    exact Or.inl hs
  | cons q rest ih =>
    intro acc s hs
    by_cases h : exchange ∈ exchangesOf q
    · have h2 := (mapIndex_ok_iff q exchange).2 h
      cases hd : q.Deliveries with
      | none =>
        simp only [Publish.loop, h2, if_true, hd] at hs
        exact Or.inl hs
      | some c =>
        simp only [Publish.loop, h2, if_true, hd] at hs
        rcases ih _ s hs with h3 | ⟨p, hp, hpe, hpc⟩
        · rcases List.mem_append.1 h3 with h4 | h4
          · exact Or.inl h4
          · refine Or.inr ⟨q, List.mem_cons_self _ _, h, ?_⟩
            simp only [List.mem_singleton] at h4
            rw [h4, hd]
        · exact Or.inr ⟨p, List.mem_cons_of_mem _ hp, hpe, hpc⟩
    · have h2 := mapIndex_not_ok q exchange h
      simp only [Publish.loop, h2] at hs
      rcases ih _ s (by simpa using hs) with h3 | ⟨p, hp, hpe, hpc⟩
      · exact Or.inl h3
      · exact Or.inr ⟨p, List.mem_cons_of_mem _ hp, hpe, hpc⟩

theorem publish_loop_blocks (exchange key : String) (msg : amqp.Publishing) :
    ∀ (qs : List MockAMQPQueue) (acc : List Send),
      (∃ q ∈ qs, exchange ∈ exchangesOf q ∧ q.Deliveries = none) →
      (Publish.loop exchange key msg qs acc).2 = .blockedOnNil := by
  intro qs
  induction qs with
  | nil => intro acc h; simp at h
  | cons q rest ih =>
    intro acc hex
    by_cases h : exchange ∈ exchangesOf q
    · have h2 := (mapIndex_ok_iff q exchange).2 h
      cases hd : q.Deliveries with
      | none => simp [Publish.loop, h2, hd]
      | some c =>
        simp only [Publish.loop, h2, if_true, hd]
        apply ih
        obtain ⟨p, hp, hpe, hpn⟩ := hex
        rcases List.mem_cons.1 hp with e | e
        · subst e; rw [hd] at hpn; cases hpn
        · exact ⟨p, e, hpe, hpn⟩
    · have h2 := mapIndex_not_ok q exchange h
      simp only [Publish.loop, h2]
      have : ∃ p ∈ rest, exchange ∈ exchangesOf p ∧ p.Deliveries = none := by
        obtain ⟨p, hp, hpe, hpn⟩ := hex
        rcases List.mem_cons.1 hp with e | e
        · subst e; exact absurd hpe h
        · exact ⟨p, e, hpe, hpn⟩
      simpa using ih acc this

theorem publish_sends (mock : MockAMQPChannel) (exchange key : String)
    (mandatory immediate : Bool) (msg : amqp.Publishing)
    (hmade : ∀ q ∈ mock.Queues, exchange ∈ exchangesOf q → q.Deliveries ≠ none) :
    mock.Publish exchange key mandatory immediate msg
      = ((mock.Queues.filter (fun q => decide (exchange ∈ exchangesOf q))).map
          (fun q => ({ ch := q.Deliveries, d := publishDelivery exchange key msg } : Send)),
         .returned none) := by
  simp [MockAMQPChannel.Publish, publish_loop_made exchange key msg mock.Queues [] hmade]

theorem rebind_of_ne (name key exchange : String) (q : MockAMQPQueue) (h : q.Name ≠ name) :
    rebind name key exchange q = q := by
  simp [rebind, h]

theorem rebind_name (name key exchange : String) (q : MockAMQPQueue) :
    (rebind name key exchange q).Name = q.Name := by
  unfold rebind
  split
  · split <;> rfl
  · rfl

theorem rebind_deliveries (name key exchange : String) (q : MockAMQPQueue) :
    (rebind name key exchange q).Deliveries = q.Deliveries := by
  unfold rebind
  split
  · split <;> rfl
  · rfl

theorem rebind_map_ne_none (name key exchange : String) (q : MockAMQPQueue)
    (h : q.BoundExchanges ≠ none) : (rebind name key exchange q).BoundExchanges ≠ none := by
  unfold rebind
  split
  · split
    · exact h
    · simp
  · exact h

theorem keysUnder_rebind (name key exchange e : String) (q : MockAMQPQueue)
    (hname : q.Name = name) (hmap : q.BoundExchanges ≠ none) :
    keysUnder (rebind name key exchange q) e
      = if e = exchange then some ((keysUnder q exchange).getD [] ++ [key]) else keysUnder q e := by
  unfold rebind keysUnder
  cases hm : q.BoundExchanges with
  | none => exact absurd hm hmap
  | some kvs =>
    by_cases he : e = exchange
    · subst he; simp [hname, lookup_put_same]
    · simp [hname, he, lookup_put_other _ _ _ _ he]

theorem loop_step (name key exchange : String) (n i : Nat) (qs : List MockAMQPQueue)
    (queue : MockAMQPQueue) (hq : qs[i]? = some queue) (hmap : queue.Name = name → queue.BoundExchanges ≠ none) :
    QueueBind.loop name key exchange (n + 1) i qs
      = QueueBind.loop name key exchange n (i + 1) (qs.set i (rebind name key exchange queue)) := by
  have hset : qs.set i queue = qs := by
    apply List.ext_getElem?
    intro j
    rw [List.getElem?_set]
    by_cases hij : i = j
    · subst hij
      have hlt : i < qs.length := by
        rcases List.getElem?_eq_some.1 hq with ⟨h, _⟩
        exact h
      simp [hlt, hq]
    · simp [hij]
  rw [QueueBind.loop]
  simp only [hq]
  by_cases hname : queue.Name = name
  · have hm := hmap hname
    cases hb : queue.BoundExchanges with
    | none => exact absurd hb hm
    | some kvs =>
      have hnew : (if (mapIndex (some kvs) exchange).2 = true then (mapIndex (some kvs) exchange).1 ++ [key] else [key])
          = (kvs.lookup exchange).getD [] ++ [key] := by
        unfold mapIndex
        cases hl : kvs.lookup exchange <;> simp [hl]
      simp only [hname, if_true, hb, mapAssign, rebind, hnew]
  · simp [hname, rebind, hset]

theorem loop_spec (name key exchange : String) :
    ∀ (n i : Nat) (qs : List MockAMQPQueue),
      (∀ q ∈ qs, q.Name = name → q.BoundExchanges ≠ none) →
      i + n = qs.length →
      ∃ r, QueueBind.loop name key exchange n i qs = .ok r ∧
        ∀ j, r[j]? = if j < i then qs[j]? else (qs[j]?).map (rebind name key exchange) := by
  intro n
  induction n with
  | zero =>
    intro i qs _ hlen
    refine ⟨qs, rfl, ?_⟩
    intro j
    by_cases hj : j < i
    · simp [hj]
    · have : qs.length ≤ j := by omega
      simp [hj, List.getElem?_eq_none this]
  | succ n ih =>
    intro i qs hnn hlen
    have hlt : i < qs.length := by omega
    have hq : qs[i]? = some qs[i] := by simp [hlt]
    have hmem : qs[i] ∈ qs := List.getElem_mem hlt
    rw [loop_step name key exchange n i qs qs[i] hq (hnn _ hmem)]
    have hnn2 : ∀ q ∈ qs.set i (rebind name key exchange qs[i]), q.Name = name → q.BoundExchanges ≠ none := by
      intro q hqm hqn
      rcases List.mem_or_eq_of_mem_set hqm with h | h
      · exact hnn q h hqn
      · subst h
        rw [rebind_name] at hqn
        exact rebind_map_ne_none _ _ _ _ (hnn _ hmem hqn)
    obtain ⟨r, hr, hrj⟩ := ih (i + 1) (qs.set i (rebind name key exchange qs[i])) hnn2
      (by rw [List.length_set]; omega)
    refine ⟨r, hr, ?_⟩
    intro j
    rw [hrj j, List.getElem?_set]
    by_cases h1 : j < i
    · have h2 : j < i + 1 := by omega
      have h3 : i ≠ j := by omega
      simp [h1, h2, h3]
    · by_cases h4 : j = i
      · subst h4
        simp [hlt]
      · have h5 : ¬ j < i + 1 := by omega
        have h6 : i ≠ j := fun e => h4 e.symm
        simp [h1, h5, h6]

theorem queueBind_eq (mock : MockAMQPChannel) (name key exchange : String)
    (noWait : Bool) (args : amqp.Table)
    (hnn : ∀ q ∈ mock.Queues, q.Name = name → q.BoundExchanges ≠ none) :
    mock.QueueBind name key exchange noWait args
      = .ok ({ Queues := mock.Queues.map (rebind name key exchange) }, none) := by
  obtain ⟨r, hr, hrj⟩ := loop_spec name key exchange mock.Queues.length 0 mock.Queues hnn (by simp)
  have : r = mock.Queues.map (rebind name key exchange) := by
    apply List.ext_getElem?
    intro j
    rw [hrj j, List.getElem?_map]
    simp
  subst this
  simp [MockAMQPChannel.QueueBind, hr]

theorem mem_put_keys (k e : String) (v : List String) (kvs : GoMap) :
    e ∈ (GoMap.put k v kvs).map Prod.fst ↔ e = k ∨ e ∈ kvs.map Prod.fst := by
  induction kvs with
  | nil => simp [GoMap.put]
  | cons p rest ih =>
    obtain ⟨k0, v0⟩ := p
    by_cases h : k0 = k
    · subst h; simp [GoMap.put]
    · simp only [GoMap.put, h, if_false, List.map_cons, List.mem_cons, ih]
      tauto

theorem exchangesOf_rebind_mono (name key exchange e : String) (q : MockAMQPQueue)
    (h : e ∈ exchangesOf q) : e ∈ exchangesOf (rebind name key exchange q) := by
  unfold rebind
  split
  · cases hm : q.BoundExchanges with
    | none => simpa [hm] using h
    | some kvs =>
      have h2 : e ∈ kvs.map Prod.fst := by simpa [exchangesOf, hm] using h
      simp only [exchangesOf]
      exact (mem_put_keys _ _ _ _).2 (Or.inr h2)
  · exact h

theorem exchangesOf_rebind_self (name key exchange : String) (q : MockAMQPQueue)
    (hname : q.Name = name) (hmap : q.BoundExchanges ≠ none) :
    exchange ∈ exchangesOf (rebind name key exchange q) := by
  unfold rebind
  cases hm : q.BoundExchanges with
  | none => exact absurd hm hmap
  | some kvs =>
    simp only [hname, if_true, exchangesOf]
    exact (mem_put_keys _ _ _ _).2 (Or.inl rfl)

/-! ## Consume -/

theorem consume_not_found (queue : String) (qs : List MockAMQPQueue)
    (h : ∀ q ∈ qs, q.Name ≠ queue) :
    Consume.loop queue qs = (none, some "Couldn't find queue by name") := by
  induction qs with
  | nil => rfl
  | cons q rest ih =>
    have h1 : q.Name ≠ queue := h q (List.mem_cons_self _ _)
    simp only [Consume.loop, h1, if_false]
    exact ih (fun p hp => h p (List.mem_cons_of_mem _ hp))

theorem consume_found (queue : String) (front : List MockAMQPQueue) (q : MockAMQPQueue)
    (back : List MockAMQPQueue) (hfront : ∀ p ∈ front, p.Name ≠ queue) (hq : q.Name = queue) :
    Consume.loop queue (front ++ q :: back) = (q.Deliveries, none) := by
  induction front with
  | nil => simp [Consume.loop, hq]
  | cons p rest ih =>
    have h1 : p.Name ≠ queue := hfront p (List.mem_cons_self _ _)
    simp only [List.cons_append, Consume.loop, h1, if_false]
    exact ih (fun r hr => hfront r (List.mem_cons_of_mem _ hr))

theorem exists_first_named (queue : String) (qs : List MockAMQPQueue)
    (h : ∃ q ∈ qs, q.Name = queue) :
    ∃ front q back, qs = front ++ q :: back ∧ (∀ p ∈ front, p.Name ≠ queue) ∧ q.Name = queue := by
  induction qs with
  | nil => simp at h
  | cons p rest ih =>
    by_cases hp : p.Name = queue
    · exact ⟨[], p, rest, rfl, by simp, hp⟩
    · have h2 : ∃ q ∈ rest, q.Name = queue := by
        obtain ⟨q, hq, hn⟩ := h
        rcases List.mem_cons.1 hq with e | e
        · subst e; exact absurd hn hp
        · exact ⟨q, e, hn⟩
      obtain ⟨front, q, back, e, hf, hq⟩ := ih h2
      refine ⟨p :: front, q, back, by simp [e], ?_, hq⟩
      intro r hr
      rcases List.mem_cons.1 hr with e2 | e2
      · subst e2; exact hp
      · exact hf r e2

theorem consume_error_iff (queue : String) (qs : List MockAMQPQueue) :
    (Consume.loop queue qs).2 = some "Couldn't find queue by name" ↔ ∀ q ∈ qs, q.Name ≠ queue := by
  constructor
  · intro h q hq hn
    obtain ⟨front, q1, back, e, hf, hq1⟩ := exists_first_named queue qs ⟨q, hq, hn⟩
    rw [e, consume_found queue front q1 back hf hq1] at h
    simp at h
  · intro h
    rw [consume_not_found queue qs h]

/-! ## Set-up runs -/

theorem call_declare (s : Session) (name : String) (durable autoDelete exclusive noWait : Bool)
    (args : amqp.Table) :
    s.call (.declare name durable autoDelete exclusive noWait args)
      = .ok { made := s.made + 1,
              mock := { Queues := s.mock.Queues ++
                [{ Name := name, Deliveries := some s.made, BoundExchanges := some [] }] } } := rfl

theorem call_bind (s : Session) (name key exchange : String) (noWait : Bool) (args : amqp.Table)
    (hnn : ∀ q ∈ s.mock.Queues, q.BoundExchanges ≠ none) :
    s.call (.bind name key exchange noWait args)
      = .ok { made := s.made, mock := { Queues := s.mock.Queues.map (rebind name key exchange) } } := by
  simp [Session.call, queueBind_eq s.mock name key exchange noWait args (fun q hq _ => hnn q hq)]

theorem run_append (s : Session) (xs ys : List Call) :
    s.run (xs ++ ys) = match s.run xs with
      | .error e => .error e
      | .ok s1 => s1.run ys := by
  induction xs generalizing s with
  | nil => rfl
  | cons c rest ih =>
    simp only [List.cons_append, Session.run]
    cases s.call c with
    | error e => rfl
    | ok s1 => exact ih s1

theorem fresh_empty (n0 : Nat) : (Session.empty n0).Fresh n0 := by
  simp [Session.Fresh, Session.empty]

theorem fresh_maps (n0 : Nat) (s : Session) (h : s.Fresh n0) :
    ∀ q ∈ s.mock.Queues, q.BoundExchanges ≠ none := by
  intro q hq
  obtain ⟨j, hj⟩ := List.mem_iff_getElem?.1 hq
  exact (h.2 j q hj).2

theorem fresh_made (n0 : Nat) (s : Session) (h : s.Fresh n0) :
    ∀ q ∈ s.mock.Queues, q.Deliveries ≠ none := by
  intro q hq
  obtain ⟨j, hj⟩ := List.mem_iff_getElem?.1 hq
  rw [(h.2 j q hj).1]
  simp

theorem grows_refl (s : Session) : s.Grows s := by
  intro j q h
  exact ⟨q, h, rfl, fun _ he => he⟩

theorem grows_trans (s s1 s2 : Session) (h1 : s.Grows s1) (h2 : s1.Grows s2) : s.Grows s2 := by
  intro j q hq
  obtain ⟨q1, hq1, hn1, he1⟩ := h1 j q hq
  obtain ⟨q2, hq2, hn2, he2⟩ := h2 j q1 hq1
  exact ⟨q2, hq2, hn2.trans hn1, fun e he => he2 e (he1 e he)⟩

theorem fresh_call (n0 : Nat) (s : Session) (c : Call) (h : s.Fresh n0) :
    ∃ s1, s.call c = .ok s1 ∧ s1.Fresh n0 ∧ s.Grows s1 := by
  cases c with
  | declare name durable autoDelete exclusive noWait args =>
    refine ⟨_, call_declare s name durable autoDelete exclusive noWait args, ⟨?_, ?_⟩, ?_⟩
    · simp [h.1]; omega
    · intro j q hq
      simp only [List.getElem?_append] at hq
      by_cases hj : j < s.mock.Queues.length
      · simp only [hj, if_true] at hq
        exact h.2 j q hq
      · simp only [hj, if_false] at hq
        have hj2 : j - s.mock.Queues.length = 0 := by
          by_contra hne
          have : [({ Name := name, Deliveries := some s.made, BoundExchanges := some [] } : MockAMQPQueue)][j - s.mock.Queues.length]? = none := by
            apply List.getElem?_eq_none
            simp; omega
          rw [this] at hq
          cases hq
        rw [hj2] at hq
        simp at hq
        subst hq
        have : j = s.mock.Queues.length := by omega
        simp [h.1, this]
    · intro j q hq
      have hj : j < s.mock.Queues.length := by
        rcases List.getElem?_eq_some.1 hq with ⟨hlt, _⟩
        exact hlt
      exact ⟨q, by simp [List.getElem?_append, hj, hq], rfl, fun _ he => he⟩
  | bind name key exchange noWait args =>
    refine ⟨_, call_bind s name key exchange noWait args (fresh_maps n0 s h), ⟨?_, ?_⟩, ?_⟩
    · simp [h.1]
    · intro j q hq
      simp only [List.getElem?_map] at hq
      cases hj : s.mock.Queues[j]? with
      | none => simp [hj] at hq
      | some q0 =>
        simp only [hj, Option.map_some'] at hq
        cases hq
        obtain ⟨hd, hm⟩ := h.2 j q0 hj
        exact ⟨by rw [rebind_deliveries]; exact hd, rebind_map_ne_none _ _ _ _ hm⟩
    · intro j q hq
      refine ⟨rebind name key exchange q, by simp [List.getElem?_map, hq], rebind_name _ _ _ _, ?_⟩
      intro e he
      exact exchangesOf_rebind_mono _ _ _ _ _ he

theorem fresh_run (n0 : Nat) (calls : List Call) :
    ∀ s : Session, s.Fresh n0 → ∃ s1, s.run calls = .ok s1 ∧ s1.Fresh n0 ∧ s.Grows s1 := by
  induction calls with
  | nil => intro s h; exact ⟨s, rfl, h, grows_refl s⟩
  | cons c rest ih =>
    intro s h
    obtain ⟨s1, hc, hf1, hg1⟩ := fresh_call n0 s c h
    obtain ⟨s2, hr, hf2, hg2⟩ := ih s1 hf1
    exact ⟨s2, by simp [Session.run, hc, hr], hf2, grows_trans s s1 s2 hg1 hg2⟩

theorem built_fresh (n0 : Nat) (calls : List Call) (s : Session)
    (h : (Session.empty n0).run calls = .ok s) : s.Fresh n0 := by
  obtain ⟨s1, hr, hf, _⟩ := fresh_run n0 calls (Session.empty n0) (fresh_empty n0)
  rw [hr] at h
  cases h
  exact hf

theorem run_declares (name : String) (fl : List (Bool × Bool × Bool × Bool × amqp.Table)) :
    ∀ s : Session, s.run (declares name fl)
      = .ok { made := s.made + fl.length,
              mock := { Queues := s.mock.Queues ++ ((List.range fl.length).map
                (fun i => ({ Name := name, Deliveries := some (s.made + i), BoundExchanges := some [] } : MockAMQPQueue))) } } := by
  induction fl with
  | nil => intro s; simp [declares, Session.run]
  | cons f rest ih =>
    intro s
    have h := ih { made := s.made + 1,
                   mock := { Queues := s.mock.Queues ++
                     [{ Name := name, Deliveries := some s.made, BoundExchanges := some [] }] } }
    simp only [declares, List.map_cons, Session.run, call_declare] at h ⊢
    have e1 : s.made + 1 + rest.length = s.made + (rest.length + 1) := by omega
    have e2 : (fun i => ({ Name := name, Deliveries := some (s.made + 1 + i), BoundExchanges := some [] } : MockAMQPQueue))
        = (fun i => ({ Name := name, Deliveries := some (s.made + i), BoundExchanges := some [] } : MockAMQPQueue)) ∘ Nat.succ := by
      funext i
      simp only [Function.comp, Nat.succ_eq_add_one]
      congr 2
      omega
    rw [h, e1, e2]
    simp [List.range_succ_eq_map, List.map_map]

theorem countDeclares_append (xs ys : List Call) :
    countDeclares (xs ++ ys) = countDeclares xs + countDeclares ys := by
  induction xs with
  | nil => simp [countDeclares]
  | cons c rest ih =>
    cases c
    · simp [countDeclares, ih]; omega
    · simp [countDeclares, ih]

theorem fresh_call_length (n0 : Nat) (s s1 : Session) (c : Call) (h : s.Fresh n0)
    (hc : s.call c = .ok s1) :
    s1.mock.Queues.length = s.mock.Queues.length + countDeclares [c] := by
  cases c with
  | declare name durable autoDelete exclusive noWait args =>
    rw [call_declare] at hc
    cases hc
    simp [countDeclares]
  | bind name key exchange noWait args =>
    rw [call_bind s name key exchange noWait args (fresh_maps n0 s h)] at hc
    cases hc
    simp [countDeclares]

theorem fresh_run_length (n0 : Nat) (calls : List Call) :
    ∀ s s1 : Session, s.Fresh n0 → s.run calls = .ok s1 →
      s1.mock.Queues.length = s.mock.Queues.length + countDeclares calls := by
  induction calls with
  | nil =>
    intro s s1 _ hr
    simp only [Session.run] at hr
    cases hr
    simp [countDeclares]
  | cons c rest ih =>
    intro s s1 h hr
    obtain ⟨s2, hc, hf2, _⟩ := fresh_call n0 s c h
    simp only [Session.run, hc] at hr
    have h1 := fresh_call_length n0 s s2 c h hc
    have h2 := ih s2 s1 hf2 hr
    have h3 : countDeclares (c :: rest) = countDeclares [c] + countDeclares rest :=
      countDeclares_append [c] rest
    omega

theorem run_single (s s1 : Session) (c : Call) (h : s.call c = .ok s1) : s.run [c] = .ok s1 := by
  simp [Session.run, h]

theorem run_append_ok (s s1 s2 : Session) (xs ys : List Call)
    (h1 : s.run xs = .ok s1) (h2 : s1.run ys = .ok s2) : s.run (xs ++ ys) = .ok s2 := by
  rw [run_append, h1]
  exact h2

theorem declare_last (s : Session) (name : String) (durable autoDelete exclusive noWait : Bool)
    (args : amqp.Table) (s1 : Session)
    (hc : s.call (.declare name durable autoDelete exclusive noWait args) = .ok s1) :
    ∃ q, s1.mock.Queues[s.mock.Queues.length]? = some q ∧ q.Name = name := by
  rw [call_declare] at hc
  cases hc
  exact ⟨_, List.getElem?_concat_length _ _, rfl⟩

theorem bind_binds (n0 : Nat) (s s1 : Session) (name key exchange : String) (noWait : Bool)
    (args : amqp.Table) (h : s.Fresh n0)
    (hc : s.call (.bind name key exchange noWait args) = .ok s1) :
    ∀ (j : Nat) (q1 : MockAMQPQueue), s1.mock.Queues[j]? = some q1 → q1.Name = name →
      exchange ∈ exchangesOf q1 := by
  rw [call_bind s name key exchange noWait args (fresh_maps n0 s h)] at hc
  cases hc
  intro j q1 hq1 hname
  simp only [List.getElem?_map] at hq1
  cases hj : s.mock.Queues[j]? with
  | none => simp [hj] at hq1
  | some q0 =>
    simp only [hj, Option.map_some'] at hq1
    cases hq1
    rw [rebind_name] at hname
    exact exchangesOf_rebind_self _ _ _ _ hname (h.2 j q0 hj).2

theorem consume_fresh (n0 : Nat) (s : Session) (h : s.Fresh n0) (name consumer : String)
    (autoAck exclusive noLocal noWait : Bool) (args : amqp.Table) (j : Nat)
    (hres : (s.mock.Consume name consumer autoAck exclusive noLocal noWait args).1 = some (n0 + j)) :
    (∃ q, s.mock.Queues[j]? = some q ∧ q.Name = name) ∧
    ∀ (i : Nat) (p : MockAMQPQueue), i < j → s.mock.Queues[i]? = some p → p.Name ≠ name := by
  by_cases hex : ∃ q ∈ s.mock.Queues, q.Name = name
  · obtain ⟨front, q, back, e, hf, hq⟩ := exists_first_named name s.mock.Queues hex
    have hcons : s.mock.Consume name consumer autoAck exclusive noLocal noWait args
        = (q.Deliveries, none) := by
      simp only [MockAMQPChannel.Consume, e]
      exact consume_found name front q back hf hq
    have hidx : s.mock.Queues[front.length]? = some q := by
      rw [e, List.getElem?_append_right (le_refl _)]; simp
    have hd := (h.2 front.length q hidx).1
    rw [hcons, hd] at hres
    have hj : front.length = j := by
      simp at hres
      exact hres
    subst hj
    refine ⟨⟨q, hidx, hq⟩, ?_⟩
    intro i p hi hp
    rw [e, List.getElem?_append_left hi] at hp
    exact hf p (List.mem_iff_getElem?.2 ⟨i, hp⟩)
  · have hno : ∀ q ∈ s.mock.Queues, q.Name ≠ name := fun q hq hn => hex ⟨q, hq, hn⟩
    have hcons : s.mock.Consume name consumer autoAck exclusive noLocal noWait args
        = (none, some "Couldn't find queue by name") := consume_not_found name s.mock.Queues hno
    rw [hcons] at hres
    simp at hres

/-! ## Connections and dialers -/

theorem getElem?_snoc_two {α : Type} (l : List α) (x y : α) :
    (l ++ [x] ++ [y])[l.length]? = some x ∧ (l ++ [x] ++ [y])[(l ++ [x]).length]? = some y := by
  constructor
  · rw [List.append_assoc, List.getElem?_append_right (le_refl _)]
    simp
  · rw [List.getElem?_append_right (le_refl _)]
    simp

theorem channel_of_set (h : Heap) (p : Nat) (c : MockAMQPConnection) (a : Nat)
    (hc : h.conns[p]? = some c) (ha : c.AMQPCHAN = some a) :
    MockAMQPConnection.Channel h p = .ok (h, some a, none) := by
  simp [MockAMQPConnection.Channel, hc, ha]

theorem channel_of_nil (h : Heap) (p : Nat) (c : MockAMQPConnection)
    (hc : h.conns[p]? = some c) (ha : c.AMQPCHAN = none) :
    MockAMQPConnection.Channel h p
      = .ok ({ made := h.made,
               channels := h.channels ++ [{ Queues := [] }],
               conns := h.conns.set p { c with AMQPCHAN := some h.channels.length } },
             some h.channels.length, none) := by
  simp [MockAMQPConnection.Channel, hc, ha]

theorem dialBoth_of_set (h : Heap) (mdial : MockAMQPDialer) (s1 s2 : String) (tlscfg : Option Nat)
    (a : Nat) (ha : mdial.Connection.AMQPCHAN = some a) :
    ∃ h4, dialBoth h mdial s1 s2 tlscfg = .ok (h4, some a, some a) ∧ h4.channels = h.channels := by
  have e1 : (h.conns ++ [mdial.Connection] ++ [mdial.Connection])[h.conns.length]?
      = some mdial.Connection := (getElem?_snoc_two _ _ _).1
  have e2 : (h.conns ++ [mdial.Connection] ++ [mdial.Connection])[(h.conns ++ [mdial.Connection]).length]?
      = some mdial.Connection := (getElem?_snoc_two _ _ _).2
  unfold dialBoth
  simp only [MockAMQPDialer.Dial, MockAMQPDialer.DialTLS]
  rw [channel_of_set _ _ _ a e1 ha]
  simp only
  rw [channel_of_set _ _ _ a e2 ha]
  exact ⟨_, rfl, rfl⟩

theorem dialBoth_of_nil (h : Heap) (mdial : MockAMQPDialer) (s1 s2 : String) (tlscfg : Option Nat)
    (ha : mdial.Connection.AMQPCHAN = none) :
    ∃ h4, dialBoth h mdial s1 s2 tlscfg
      = .ok (h4, some h.channels.length, some (h.channels.length + 1)) := by
  have e1 : (h.conns ++ [mdial.Connection] ++ [mdial.Connection])[h.conns.length]?
      = some mdial.Connection := (getElem?_snoc_two _ _ _).1
  have e2 : ((h.conns ++ [mdial.Connection] ++ [mdial.Connection]).set h.conns.length
        { mdial.Connection with AMQPCHAN := some h.channels.length })[(h.conns ++ [mdial.Connection]).length]?
      = some mdial.Connection := by
    rw [List.getElem?_set_ne (by simp), (getElem?_snoc_two _ _ _).2]
  unfold dialBoth
  simp only [MockAMQPDialer.Dial, MockAMQPDialer.DialTLS]
  rw [channel_of_nil _ _ _ e1 ha]
  simp only
  rw [channel_of_nil _ _ _ e2 ha]
  simp

theorem fresh_nodup (n0 : Nat) (s : Session) (h : s.Fresh n0) :
    (s.mock.Queues.map MockAMQPQueue.Deliveries).Nodup := by
  have e : s.mock.Queues.map MockAMQPQueue.Deliveries
      = (List.range s.mock.Queues.length).map (fun j => some (n0 + j)) := by
    apply List.ext_getElem?
    intro j
    rw [List.getElem?_map, List.getElem?_map]
    by_cases hj : j < s.mock.Queues.length
    · have hq : s.mock.Queues[j]? = some s.mock.Queues[j] := by simp [hj]
      have hd := (h.2 j _ hq).1
      rw [hq, List.getElem?_range hj]
      simp [hd]
    · have hj2 : s.mock.Queues.length ≤ j := by omega
      rw [List.getElem?_eq_none hj2, List.getElem?_eq_none (by simpa using hj2)]
      rfl
  rw [e]
  apply List.Nodup.map _ (List.nodup_range _)
  intro x y hxy
  simpa using hxy

end tests

open tests

/-! ## The claims -/

/-- C3: `Consume(n, ...)` returns the not-found error exactly when no queue of
the collection has the name `n`, and then the nil channel with it; when a queue
has the name, there is a first one, and the call returns its delivery channel
and the nil error; the consumer tag, the flags and the arguments play no part;
after two declarations of `n` on a channel with no queue of that name the
result is the channel of the first declaration and not that of the second. -/
theorem C3_consume_first_or_not_found (mock : MockAMQPChannel) (n consumer : String)
    (autoAck exclusive noLocal noWait : Bool) (args : amqp.Table) :
    ((mock.Consume n consumer autoAck exclusive noLocal noWait args).2
        = some "Couldn't find queue by name" ↔ ∀ q ∈ mock.Queues, q.Name ≠ n) ∧
    ((∀ q ∈ mock.Queues, q.Name ≠ n) →
      mock.Consume n consumer autoAck exclusive noLocal noWait args
        = (none, some "Couldn't find queue by name")) ∧
    ((∃ q ∈ mock.Queues, q.Name = n) →
      ∃ front q back, mock.Queues = front ++ q :: back ∧ (∀ p ∈ front, p.Name ≠ n) ∧ q.Name = n) ∧
    (∀ front q back, mock.Queues = front ++ q :: back → (∀ p ∈ front, p.Name ≠ n) → q.Name = n →
      mock.Consume n consumer autoAck exclusive noLocal noWait args = (q.Deliveries, none)) ∧
    (mock.Consume n consumer autoAck exclusive noLocal noWait args
      = mock.Consume n "" false false false false []) ∧
    (∀ (made1 made2 : Nat) (d1 a1 e1 w1 d2 a2 e2 w2 : Bool) (args1 args2 : amqp.Table),
      (∀ q ∈ mock.Queues, q.Name ≠ n) → made1 ≠ made2 →
      (((mock.QueueDeclare made1 n d1 a1 e1 w1 args1).1.QueueDeclare made2 n d2 a2 e2 w2 args2).1.Consume
          n consumer autoAck exclusive noLocal noWait args = (some made1, none)) ∧
      (((mock.QueueDeclare made1 n d1 a1 e1 w1 args1).1.QueueDeclare made2 n d2 a2 e2 w2 args2).1.Consume
          n consumer autoAck exclusive noLocal noWait args).1 ≠ some made2) := by
  refine ⟨consume_error_iff n mock.Queues, consume_not_found n mock.Queues,
    exists_first_named n mock.Queues, ?_, rfl, ?_⟩
  · intro front q back h hf hq
    simp only [MockAMQPChannel.Consume, h]
    exact consume_found n front q back hf hq
  · intro made1 made2 d1 a1 e1 w1 d2 a2 e2 w2 args1 args2 hno hne
    have h : ((mock.QueueDeclare made1 n d1 a1 e1 w1 args1).1.QueueDeclare made2 n d2 a2 e2 w2 args2).1.Consume
          n consumer autoAck exclusive noLocal noWait args = (some made1, none) := by
      simp only [MockAMQPChannel.Consume, MockAMQPChannel.QueueDeclare, List.append_assoc,
        List.singleton_append]
      exact consume_found n mock.Queues _ _ hno rfl
    refine ⟨h, ?_⟩
    rw [h]
    simpa using hne

/-- C5: `QueueDeclare(name, ...)` returns the descriptor with that name and
zero counts and the nil error, and the queue collection after the call is the
old one followed by one queue with that name, the new channel and an empty
non-nil map, whatever queues the collection held; after `k` calls with one
name on the empty channel the collection has `k` entries, all of that name,
on `k` different channels. -/
theorem C5_declare_appends (mock : MockAMQPChannel) (made : Nat) (name : String)
    (durable autoDelete exclusive noWait : Bool) (args : amqp.Table) :
    mock.QueueDeclare made name durable autoDelete exclusive noWait args
      = ({ Queues := mock.Queues ++ [{ Name := name, Deliveries := some made, BoundExchanges := some [] }] },
         { Name := name, Messages := 0, Consumers := 0 }, none) ∧
    (∀ (n0 : Nat) (fl : List (Bool × Bool × Bool × Bool × amqp.Table)),
      ∃ s, (Session.empty n0).run (declares name fl) = .ok s ∧
        s.mock.Queues = (List.range fl.length).map
          (fun i => ({ Name := name, Deliveries := some (n0 + i), BoundExchanges := some [] } : MockAMQPQueue)) ∧
        s.mock.Queues.length = fl.length ∧
        (s.mock.Queues.filter (fun q => decide (q.Name = name))).length = fl.length ∧
        (s.mock.Queues.map MockAMQPQueue.Deliveries).Nodup) := by
  refine ⟨rfl, ?_⟩
  intro n0 fl
  refine ⟨_, run_declares name fl (Session.empty n0), ?_, ?_, ?_, ?_⟩
  · simp [Session.empty]
  · simp [Session.empty]
  · have hall : ∀ q ∈ (List.range fl.length).map
        (fun i => ({ Name := name, Deliveries := some (n0 + i), BoundExchanges := some [] } : MockAMQPQueue)),
        decide (q.Name = name) = true := by
      intro q hq
      obtain ⟨i, _, rfl⟩ := List.mem_map.1 hq
      simp
    simp only [Session.empty, List.nil_append]
    rw [List.filter_eq_self.2 hall]
    simp
  · simp only [Session.empty, List.nil_append, List.map_map]
    apply List.Nodup.map _ (List.nodup_range _)
    intro a b hab
    simpa [Function.comp] using hab

/-- C6: on a channel built from the empty channel by `QueueDeclare` and
`QueueBind` calls, `QueueBind(name, key, exchange, ...)` does not panic and
returns the nil error; the collection keeps its length, and the queue at every
position keeps its name and its channel; a queue of another name is unchanged;
every queue of that name has, under `exchange`, the keys it had there followed
by `key` (the one key `key` if it had none), and under every other exchange
what it had; a second identical call adds `key` once more. -/
theorem C6_bind_appends_key (n0 : Nat) (calls : List Call) (s : Session)
    (hbuilt : (Session.empty n0).run calls = .ok s)
    (name key exchange : String) (noWait : Bool) (args : amqp.Table) :
    ∃ mock1, s.mock.QueueBind name key exchange noWait args = .ok (mock1, none) ∧
      mock1.Queues.length = s.mock.Queues.length ∧
      (∀ (i : Nat) (q : MockAMQPQueue), s.mock.Queues[i]? = some q →
        ∃ q1, mock1.Queues[i]? = some q1 ∧ q1.Name = q.Name ∧ q1.Deliveries = q.Deliveries ∧
          (q.Name ≠ name → q1 = q) ∧
          (q.Name = name →
            keysUnder q1 exchange
              = some (match keysUnder q exchange with
                      | some ks => ks ++ [key]
                      | none => [key]) ∧
            ∀ e, e ≠ exchange → keysUnder q1 e = keysUnder q e)) ∧
      ∃ mock2, mock1.QueueBind name key exchange noWait args = .ok (mock2, none) ∧
        mock2.Queues.length = s.mock.Queues.length ∧
        ∀ (i : Nat) (q : MockAMQPQueue), s.mock.Queues[i]? = some q → q.Name = name →
          ∃ q2, mock2.Queues[i]? = some q2 ∧
            keysUnder q2 exchange
              = some (match keysUnder q exchange with
                      | some ks => ks ++ [key, key]
                      | none => [key, key]) := by
  have hf := built_fresh n0 calls s hbuilt
  have hnn := fresh_maps n0 s hf
  have hnn1 : ∀ q ∈ s.mock.Queues.map (rebind name key exchange), q.BoundExchanges ≠ none := by
    intro q hq
    obtain ⟨q0, hq0, rfl⟩ := List.mem_map.1 hq
    exact rebind_map_ne_none _ _ _ _ (hnn q0 hq0)
  refine ⟨_, queueBind_eq s.mock name key exchange noWait args (fun q hq _ => hnn q hq), by simp, ?_,
    _, queueBind_eq _ name key exchange noWait args (fun q hq _ => hnn1 q hq), by simp, ?_⟩
  · intro i q hq
    have hm : q.BoundExchanges ≠ none := hnn q (List.mem_iff_getElem?.2 ⟨i, hq⟩)
    refine ⟨rebind name key exchange q, by simp [List.getElem?_map, hq], rebind_name _ _ _ _,
      rebind_deliveries _ _ _ _, rebind_of_ne _ _ _ _, ?_⟩
    intro hname
    refine ⟨?_, ?_⟩
    · rw [keysUnder_rebind name key exchange exchange q hname hm]
      cases keysUnder q exchange <;> simp
    · intro e he
      rw [keysUnder_rebind name key exchange e q hname hm]
      simp [he]
  · intro i q hq hname
    have hm : q.BoundExchanges ≠ none := hnn q (List.mem_iff_getElem?.2 ⟨i, hq⟩)
    refine ⟨rebind name key exchange (rebind name key exchange q),
      by simp [List.getElem?_map, hq], ?_⟩
    rw [keysUnder_rebind name key exchange exchange _ (by rw [rebind_name]; exact hname)
      (rebind_map_ne_none _ _ _ _ hm), keysUnder_rebind name key exchange exchange q hname hm]
    cases keysUnder q exchange <;> simp

/-- Witness of C6: the channel built by declaring "q", binding it to "ingress"
under "events", declaring "r" and declaring "q" again; binding "q" to
"ingress" under "events" once more. -/
theorem C6_bind_appends_key_witness :
    (Session.empty 0).run
        [Call.declare "q" false false false false [], Call.bind "q" "events" "ingress" false [],
         Call.declare "r" false false false false [], Call.declare "q" false false false false []]
      = .ok { made := 3, mock := { Queues :=
          [{ Name := "q", Deliveries := some 0, BoundExchanges := some [("ingress", ["events"])] },
           { Name := "r", Deliveries := some 1, BoundExchanges := some [] },
           { Name := "q", Deliveries := some 2, BoundExchanges := some [] }] } } ∧
    ∃ mock1, MockAMQPChannel.QueueBind
        { Queues :=
          [{ Name := "q", Deliveries := some 0, BoundExchanges := some [("ingress", ["events"])] },
           { Name := "r", Deliveries := some 1, BoundExchanges := some [] },
           { Name := "q", Deliveries := some 2, BoundExchanges := some [] }] }
        "q" "events" "ingress" false [] = .ok (mock1, none) ∧
      mock1.Queues.length = 3 :=
  have h := C6_bind_appends_key 0
    [Call.declare "q" false false false false [], Call.bind "q" "events" "ingress" false [],
     Call.declare "r" false false false false [], Call.declare "q" false false false false []]
    { made := 3, mock := { Queues :=
          [{ Name := "q", Deliveries := some 0, BoundExchanges := some [("ingress", ["events"])] },
           { Name := "r", Deliveries := some 1, BoundExchanges := some [] },
           { Name := "q", Deliveries := some 2, BoundExchanges := some [] }] } }
    (by rfl) "q" "events" "ingress" false []
  match h with
  | ⟨mock1, h1, h2, _⟩ => ⟨by rfl, mock1, h1, h2⟩

/-- C7: on a channel with no queue named `n`, `QueueBind(n, key, exchange, ...)`
does not panic, returns the nil error and leaves the channel as it was; a
queue named `n` declared after it is added with an empty map, and a `Publish`
to `exchange` then makes the sends it would have made without that queue, none
of them on the new queue's channel when that channel is a new one. -/
theorem C7_bind_without_queue_is_noop (mock : MockAMQPChannel) (n key exchange : String)
    (noWait : Bool) (args : amqp.Table) (hno : ∀ q ∈ mock.Queues, q.Name ≠ n) :
    mock.QueueBind n key exchange noWait args = .ok (mock, none) ∧
    (∀ (made : Nat) (durable autoDelete exclusive noWait2 : Bool) (args2 : amqp.Table),
      (mock.QueueDeclare made n durable autoDelete exclusive noWait2 args2).1.Queues
        = mock.Queues ++ [{ Name := n, Deliveries := some made, BoundExchanges := some [] }] ∧
      ∀ (K : String) (mandatory immediate : Bool) (msg : amqp.Publishing),
        ((mock.QueueDeclare made n durable autoDelete exclusive noWait2 args2).1.Publish
            exchange K mandatory immediate msg).1
          = (mock.Publish exchange K mandatory immediate msg).1 ∧
        ((∀ q ∈ mock.Queues, q.Deliveries ≠ some made) →
          ∀ s ∈ ((mock.QueueDeclare made n durable autoDelete exclusive noWait2 args2).1.Publish
                  exchange K mandatory immediate msg).1, s.ch ≠ some made)) := by
  refine ⟨?_, ?_⟩
  · rw [queueBind_eq mock n key exchange noWait args (fun q hq hn => absurd hn (hno q hq))]
    have : mock.Queues.map (rebind n key exchange) = mock.Queues := by
      conv_rhs => rw [← List.map_id mock.Queues]
      apply List.map_congr_left
      intro q hq
      simp [rebind_of_ne n key exchange q (hno q hq)]
    rw [this]
  · intro made durable autoDelete exclusive noWait2 args2
    refine ⟨rfl, ?_⟩
    intro K mandatory immediate msg
    have hpub : ((mock.QueueDeclare made n durable autoDelete exclusive noWait2 args2).1.Publish
            exchange K mandatory immediate msg).1
          = (mock.Publish exchange K mandatory immediate msg).1 := by
      simp only [MockAMQPChannel.Publish, MockAMQPChannel.QueueDeclare]
      rw [publish_loop_snoc_unbound exchange K msg _ (by simp [exchangesOf])]
    refine ⟨hpub, ?_⟩
    intro hnew s hs
    rw [hpub] at hs
    rcases publish_loop_sub exchange K msg mock.Queues [] s hs with h0 | ⟨q, hq, _, hc⟩
    · cases h0
    · rw [hc]
      exact hnew q hq

/-- Witness of C7: a channel whose only queue is "a"; binding "b". -/
theorem C7_bind_without_queue_is_noop_witness :
    (MockAMQPChannel.QueueBind
        { Queues := [{ Name := "a", Deliveries := some 0, BoundExchanges := some [] }] }
        "b" "events" "ingress" false [])
      = .ok ({ Queues := [{ Name := "a", Deliveries := some 0, BoundExchanges := some [] }] }, none) :=
  (C7_bind_without_queue_is_noop
    { Queues := [{ Name := "a", Deliveries := some 0, BoundExchanges := some [] }] }
    "b" "events" "ingress" false [] (by decide)).1

/-- C8: on a connection object, `Channel()` does not panic and returns a
non-nil channel pointer with the nil error. When the connection has no channel
the call allocates a channel with an empty queue collection and stores its
address in the connection; when it has one, the call returns it and changes
nothing. Channel objects that existed and other connections are not touched,
and every later `Channel()` on that connection, whatever has happened to the
channel objects meanwhile, returns the same pointer and changes nothing. -/
theorem C8_channel_once (h : Heap) (p : Nat) (c : MockAMQPConnection)
    (hc : h.conns[p]? = some c) :
    ∃ h1 a, MockAMQPConnection.Channel h p = .ok (h1, some a, none) ∧
      (c.AMQPCHAN = none →
        a = h.channels.length ∧ h1.channels = h.channels ++ [{ Queues := [] }] ∧
        h1.conns = h.conns.set p { c with AMQPCHAN := some a } ∧ h1.made = h.made) ∧
      (∀ a0, c.AMQPCHAN = some a0 → a = a0 ∧ h1 = h) ∧
      (∀ (i : Nat) (ch : MockAMQPChannel), h.channels[i]? = some ch → h1.channels[i]? = some ch) ∧
      (∀ (i : Nat), i ≠ p → h1.conns[i]? = h.conns[i]?) ∧
      h1.conns[p]? = some { c with AMQPCHAN := some a } ∧
      MockAMQPConnection.Channel h1 p = .ok (h1, some a, none) ∧
      (∀ h2 : Heap, h2.conns[p]? = h1.conns[p]? →
        MockAMQPConnection.Channel h2 p = .ok (h2, some a, none)) := by
  have hp : p < h.conns.length := by
    rcases List.getElem?_eq_some.1 hc with ⟨hlt, _⟩
    exact hlt
  cases ha : c.AMQPCHAN with
  | none =>
    have hnew : ({ made := h.made, channels := h.channels ++ [{ Queues := [] }],
                   conns := h.conns.set p { c with AMQPCHAN := some h.channels.length } } : Heap).conns[p]?
        = some { c with AMQPCHAN := some h.channels.length } := by
      simp [List.getElem?_set, hp]
    refine ⟨_, h.channels.length, channel_of_nil h p c hc ha, ?_, ?_, ?_, ?_, hnew, ?_, ?_⟩
    · intro _
      exact ⟨rfl, rfl, rfl, rfl⟩
    · intro a0 h0
      cases h0
    · intro i ch hi
      have hlt : i < h.channels.length := by
        rcases List.getElem?_eq_some.1 hi with ⟨hlt, _⟩
        exact hlt
      simp only [List.getElem?_append_left hlt]
      exact hi
    · intro i hi
      exact List.getElem?_set_ne (fun e => hi e.symm)
    · exact channel_of_set _ p _ _ hnew rfl
    · intro h2 h2c
      exact channel_of_set h2 p _ _ (h2c.trans hnew) rfl
  | some a =>
    have hsame : h.conns[p]? = some { c with AMQPCHAN := some a } := by
      rw [hc, ← ha]
    refine ⟨h, a, channel_of_set h p c a hc ha, ?_, ?_, ?_, ?_, hsame, channel_of_set h p c a hc ha, ?_⟩
    · intro h0
      cases h0
    · intro a0 h0
      cases h0
      exact ⟨rfl, rfl⟩
    · intro i ch hi
      exact hi
    · intro i _
      rfl
    · intro h2 h2c
      exact channel_of_set h2 p c a (h2c.trans hc) ha

/-- Witness of C8: the one connection of a heap, without a channel yet; the
first call makes channel 0 and stores it. -/
theorem C8_channel_once_witness :
    ({ made := 0, channels := [], conns := [{ AMQPURL := "amqp://localhost:5672", AMQPCHAN := none }] } : Heap).conns[0]?
        = some { AMQPURL := "amqp://localhost:5672", AMQPCHAN := none } ∧
    ∃ h1 a, MockAMQPConnection.Channel
        { made := 0, channels := [], conns := [{ AMQPURL := "amqp://localhost:5672", AMQPCHAN := none }] } 0
          = .ok (h1, some a, none) ∧
        MockAMQPConnection.Channel h1 0 = .ok (h1, some a, none) :=
  ⟨rfl,
   match C8_channel_once
      { made := 0, channels := [], conns := [{ AMQPURL := "amqp://localhost:5672", AMQPCHAN := none }] } 0
      { AMQPURL := "amqp://localhost:5672", AMQPCHAN := none } rfl with
   | ⟨h1, a, e1, _, _, _, _, _, e2, _⟩ => ⟨h1, a, e1, e2⟩⟩

/-- C4 at a dialer whose connection has no channel yet: `Dial` and `DialTLS`
each return a pointer to a copy of the dialer's connection, so the two
`Channel()` calls create two channel objects, at addresses 0 and 1, in either
order of the calls; a queue declared through the first is not among the queues
of the second. -/
theorem C4_dial_copies_connection :
    dialBoth { made := 0, channels := [], conns := [] }
        { Connection := { AMQPURL := "amqp://localhost:5672", AMQPCHAN := none } }
        "amqp://localhost:5672" "amqp://localhost:5672" none
      = .ok ({ made := 0, channels := [{ Queues := [] }, { Queues := [] }],
               conns := [{ AMQPURL := "amqp://localhost:5672", AMQPCHAN := some 0 },
                         { AMQPURL := "amqp://localhost:5672", AMQPCHAN := some 1 }] },
             some 0, some 1) ∧
    dialEach { made := 0, channels := [], conns := [] }
        { Connection := { AMQPURL := "amqp://localhost:5672", AMQPCHAN := none } }
        "amqp://localhost:5672" "amqp://localhost:5672" none
      = .ok ({ made := 0, channels := [{ Queues := [] }, { Queues := [] }],
               conns := [{ AMQPURL := "amqp://localhost:5672", AMQPCHAN := some 0 },
                         { AMQPURL := "amqp://localhost:5672", AMQPCHAN := some 1 }] },
             some 0, some 1) ∧
    (Heap.QueueDeclare
        { made := 0, channels := [{ Queues := [] }, { Queues := [] }],
          conns := [{ AMQPURL := "amqp://localhost:5672", AMQPCHAN := some 0 },
                    { AMQPURL := "amqp://localhost:5672", AMQPCHAN := some 1 }] }
        (some 0) "q" false false false false []).map
        (fun r => (r.1.queuesAt (some 0), r.1.queuesAt (some 1)))
      = .ok (some [{ Name := "q", Deliveries := some 0, BoundExchanges := some [] }], some []) := by
  refine ⟨by rfl, by rfl, by rfl⟩

/-- C10: after a run from the empty channel in which `n` is declared, later
declared again, and later still bound to `E`, the queue of the second
declaration is in the collection under the name `n` with a channel of its own
(the channels of the collection are pairwise different); every `Publish` to
`E` sends to that channel; and no `Consume`, for any queue name, tag and flags,
returns it. -/
theorem C10_later_duplicate_is_sent_to_but_never_consumed (n0 : Nat) (a b c d : List Call)
    (n key E : String) (d1 a1 e1 w1 : Bool) (args1 : amqp.Table)
    (d2 a2 e2 w2 : Bool) (args2 : amqp.Table) (w3 : Bool) (args3 : amqp.Table) :
    ∃ s q, (Session.empty n0).run
        (a ++ [Call.declare n d1 a1 e1 w1 args1] ++ b ++ [Call.declare n d2 a2 e2 w2 args2] ++ c
          ++ [Call.bind n key E w3 args3] ++ d) = .ok s ∧
      s.mock.Queues[countDeclares a + 1 + countDeclares b]? = some q ∧
      q.Name = n ∧
      q.Deliveries = some (n0 + (countDeclares a + 1 + countDeclares b)) ∧
      (∃ q0, s.mock.Queues[countDeclares a]? = some q0 ∧ q0.Name = n) ∧
      (s.mock.Queues.map MockAMQPQueue.Deliveries).Nodup ∧
      (∀ (K : String) (mandatory immediate : Bool) (msg : amqp.Publishing),
        ({ ch := q.Deliveries, d := publishDelivery E K msg } : Send)
          ∈ (s.mock.Publish E K mandatory immediate msg).1) ∧
      (∀ (name consumer : String) (autoAck exclusive noLocal noWait : Bool) (args : amqp.Table),
        (s.mock.Consume name consumer autoAck exclusive noLocal noWait args).1 ≠ q.Deliveries) := by
  obtain ⟨sA, hA, fA, _⟩ := fresh_run n0 a (Session.empty n0) (fresh_empty n0)
  have lA := fresh_run_length n0 a _ _ (fresh_empty n0) hA
  obtain ⟨sA1, hA1, fA1, _⟩ := fresh_call n0 sA (Call.declare n d1 a1 e1 w1 args1) fA
  obtain ⟨qA, hqA, hnA⟩ := declare_last sA n d1 a1 e1 w1 args1 sA1 hA1
  have lA1 := fresh_call_length n0 sA sA1 _ fA hA1
  obtain ⟨sB, hB, fB, gB⟩ := fresh_run n0 b sA1 fA1
  have lB := fresh_run_length n0 b sA1 sB fA1 hB
  obtain ⟨sB1, hB1, fB1, gB1⟩ := fresh_call n0 sB (Call.declare n d2 a2 e2 w2 args2) fB
  obtain ⟨qB, hqB, hnB⟩ := declare_last sB n d2 a2 e2 w2 args2 sB1 hB1
  obtain ⟨sC, hC, fC, gC⟩ := fresh_run n0 c sB1 fB1
  obtain ⟨sC1, hC1, fC1, gC1⟩ := fresh_call n0 sC (Call.bind n key E w3 args3) fC
  have hbind := bind_binds n0 sC sC1 n key E w3 args3 fC hC1
  obtain ⟨sD, hD, fD, gD⟩ := fresh_run n0 d sC1 fC1
  have hrun : (Session.empty n0).run
        (a ++ [Call.declare n d1 a1 e1 w1 args1] ++ b ++ [Call.declare n d2 a2 e2 w2 args2] ++ c
          ++ [Call.bind n key E w3 args3] ++ d) = .ok sD :=
    run_append_ok _ _ _ _ _
      (run_append_ok _ _ _ _ _
        (run_append_ok _ _ _ _ _
          (run_append_ok _ _ _ _ _
            (run_append_ok _ _ _ _ _
              (run_append_ok _ _ _ _ _ hA (run_single _ _ _ hA1)) hB)
            (run_single _ _ _ hB1)) hC)
        (run_single _ _ _ hC1)) hD
  have hlenA : sA.mock.Queues.length = countDeclares a := by
    simpa [Session.empty] using lA
  have hlenB : sB.mock.Queues.length = countDeclares a + 1 + countDeclares b := by
    simp only [countDeclares] at lA1
    omega
  rw [hlenA] at hqA
  rw [hlenB] at hqB
  -- the queue of the second declaration, followed to the end of the run
  obtain ⟨qC, hqC, hnC, _⟩ := gC _ qB hqB
  obtain ⟨qC1, hqC1, hnC1, _⟩ := gC1 _ qC hqC
  have hE1 : E ∈ exchangesOf qC1 := hbind _ qC1 hqC1 (by rw [hnC1, hnC, hnB])
  obtain ⟨qD, hqD, hnD, heD⟩ := gD _ qC1 hqC1
  have hnameD : qD.Name = n := by rw [hnD, hnC1, hnC, hnB]
  -- the queue of the first declaration, followed to the end of the run
  have gAll : sA1.Grows sD :=
    grows_trans _ _ _ gB (grows_trans _ _ _ gB1 (grows_trans _ _ _ gC (grows_trans _ _ _ gC1 gD)))
  obtain ⟨q0, hq0, hn0, _⟩ := gAll _ qA hqA
  have hdel := (fD.2 _ qD hqD).1
  refine ⟨sD, qD, hrun, hqD, hnameD, hdel, ⟨q0, hq0, by rw [hn0, hnA]⟩, fresh_nodup n0 sD fD, ?_, ?_⟩
  · intro K mandatory immediate msg
    rw [publish_sends sD.mock E K mandatory immediate msg (fun q hq _ => fresh_made n0 sD fD q hq)]
    refine List.mem_map.2 ⟨qD, List.mem_filter.2 ⟨List.mem_iff_getElem?.2 ⟨_, hqD⟩, ?_⟩, rfl⟩
    simpa using heD E hE1
  · intro name consumer autoAck exclusive noLocal noWait args hres
    rw [hdel] at hres
    obtain ⟨⟨q, hq, hqn⟩, hbefore⟩ :=
      consume_fresh n0 sD fD name consumer autoAck exclusive noLocal noWait args _ hres
    rw [hqD] at hq
    cases hq
    have hname : name = n := by rw [← hqn, hnameD]
    subst hname
    exact hbefore (countDeclares a) q0 (by omega) hq0 (by rw [hn0, hnA])
